import Mathlib

/-!
Shallow embedding of the media-codec-opus adapter crate
(src/src/decoder.rs, src/src/encoder.rs, src/src/lib.rs).

The native libopus engine (opus_decode, opus_encode, opus_*_ctl,
opus_packet_get_samples_per_frame, opus_encoder_create, ...) is an FFI
black box; it is modelled by oracle structures whose fields give the
return value of each native entry point, and by traces of the native
calls an operation issues.  All adapter-side control flow, state
mutation, queue bookkeeping, chunking, padding and timestamp arithmetic
is translated directly from the Rust source.
-/

set_option linter.unusedVariables false

namespace Opus

/-- Error variants of media_core's `Error` used by this crate
(`invalid_param_error!` produces `InvalidParameter`, `unsupported_error!`
produces `Unsupported`). -/
inductive Err where
  | Again : String → Err
  | Unsupported : String → Err
  | InvalidParameter : String → Err
  | Invalid : String → Err
  | CreationFailed : String → Err
  | Failed : String → Err
  | SetFailed : String → Err
deriving DecidableEq

/-- media_core sample formats used by this crate.  `Other` stands for every
format other than the two the engines support; its byte size is never
reached by the translated code paths, which reject or coerce it first. -/
inductive SampleFormat where
  | S16
  | F32
  | Other
deriving DecidableEq

/-- `SampleFormat::bytes()`: bytes per sample. -/
def SampleFormat.bytes : SampleFormat → Nat
  | .S16 => 2
  | .F32 => 4
  | .Other => 1

inductive CodecID where
  | OPUS
  | NotOpus
deriving DecidableEq

/-- Modelled from the spec: option values are booleans or integers
("Accepts a key (string) and a value (boolean or integer; boolean is
coerced to 0/1)").  media_core's `Variant` type is external to this
repository; only these two arms reach the translated match arms. -/
inductive Variant where
  | bool (b : Bool)
  | int32 (v : Int)
deriving DecidableEq

/-- The value conversion at the top of both `set_option` bodies:
`Variant::Bool(v) => v as i32, _ => value.get_int32()`. -/
def Variant.toI32 : Variant → Option Int
  | .bool b => some (if b then 1 else 0)
  | .int32 v => some v

/- libopus request ids and constants (from the generated opus_sys bindings,
values as in opus_defines.h). -/
def OPUS_OK : Int := 0
def OPUS_APPLICATION_RESTRICTED_LOWDELAY : Int := 2051
def OPUS_SET_BITRATE_REQUEST : Int := 4002
def OPUS_SET_MAX_BANDWIDTH_REQUEST : Int := 4004
def OPUS_SET_VBR_REQUEST : Int := 4006
def OPUS_SET_COMPLEXITY_REQUEST : Int := 4010
def OPUS_SET_INBAND_FEC_REQUEST : Int := 4012
def OPUS_SET_PACKET_LOSS_PERC_REQUEST : Int := 4014
def OPUS_SET_VBR_CONSTRAINT_REQUEST : Int := 4020
def OPUS_RESET_STATE : Int := 4028
def OPUS_SET_GAIN_REQUEST : Int := 4034

/-- A native libopus call issued by the adapter (recorded as a trace). -/
inductive NativeCall where
  | decCtl (request : Int) (value : Int)
  | decReset
  | encCreate (sample_rate : Int) (channels : Int) (app : Int)
  | encCtl (request : Int) (value : Int)
deriving DecidableEq

/-! ## Decoder (src/src/decoder.rs) -/

/-- The audio half of the decoder configuration (`config.audio`): optional
sample rate, sample format and channel layout (kept as its channel
count). -/
structure AudioConfig where
  sample_rate : Option Nat
  format : Option SampleFormat
  channel_layout : Option Nat
deriving DecidableEq

/-- media_core `AudioFrameDescriptor` as produced by
`AudioFrameDescriptor::try_from_channel_layout(format, samples, rate,
layout)`; `samples` is the buffer capacity in samples. -/
structure AudioFrameDescriptor where
  format : SampleFormat
  samples : Nat
  sample_rate : Nat
  channels : Nat
deriving DecidableEq

/-- A decoded output frame as observable through the pending queue:
its allocated capacity, whether the native decode was made with the FEC
flag, the frame size requested from the native decode, and the sample
count it was truncated to afterwards. -/
structure DecFrame where
  capacity : Nat
  fecMode : Bool
  requested : Int
  samples : Nat
deriving DecidableEq

/-- Oracle for the native decoder: `samplesPerFrame` models
`opus_packet_get_samples_per_frame(data, rate)`, `decodeRet` the return
code of `opus_decode`/`opus_decode_float` on (packet data, frame_size,
fec flag), `writable` whether `frame.write()/map_mut()` succeeds for the
recovery (`true`) or the normal (`false`) decode of a call, and `ctlRet`
the return code of `opus_decoder_ctl`. -/
structure DecOracle where
  samplesPerFrame : List Nat → Nat → Int
  decodeRet : List Nat → Int → Bool → Int
  writable : Bool → Bool
  ctlRet : Int → Int → Int

/-- `OpusDecoder` mutable state: the pending output queue and the two
option flags (the native handle itself lives behind the oracle). -/
structure DecoderState where
  pending : List DecFrame
  packet_loss : Bool
  fec : Bool
deriving DecidableEq

/-- `OpusDecoder::create_descriptor`: requires sample rate, format and
channel layout to be present; any format other than F32 is coerced to
S16; capacity is the 120 ms maximum `sample_rate * 120 / 1000`. -/
def OpusDecoder.create_descriptor (config : AudioConfig) :
    Except Err AudioFrameDescriptor :=
  match config.sample_rate with
  | none => .error (.InvalidParameter "config")
  | some sample_rate =>
    match config.format with
    | none => .error (.InvalidParameter "config")
    | some fmt =>
      let sample_format := if fmt = SampleFormat.F32 then SampleFormat.F32 else SampleFormat.S16
      match config.channel_layout with
      | none => .error (.InvalidParameter "config")
      | some channels =>
        let max_samples := sample_rate * 120 / 1000
        .ok ⟨sample_format, max_samples, sample_rate, channels⟩

/-- `OpusDecoder::decode`: fail if the frame is not writable; request
`opus_packet_get_samples_per_frame` samples in FEC mode and the
descriptor capacity otherwise; fail on a negative native return code;
truncate the frame to the returned sample count. -/
def OpusDecoder.decode (o : DecOracle) (desc : AudioFrameDescriptor)
    (packetData : List Nat) (fec : Bool) : Except Err DecFrame :=
  if o.writable fec then
    let frame_size : Int :=
      if fec then o.samplesPerFrame packetData desc.sample_rate
      else (desc.samples : Int)
    let ret := o.decodeRet packetData frame_size fec
    if ret < 0 then .error (.Failed "opus")
    else if ret.toNat ≤ desc.samples then
      .ok ⟨desc.samples, fec, frame_size, ret.toNat⟩
    else .error (.Invalid "truncate")
  else .error (.Invalid "not writable")

/-- `OpusDecoder::send_packet`: recompute the descriptor; if FEC and the
loss flag are both set, do a recovery decode first, push it, clear the
loss flag; then, when the packet payload is non-empty, do a normal
decode and push it.  Each `?` failure returns immediately, keeping the
state reached so far. -/
def OpusDecoder.send_packet (o : DecOracle) (config : AudioConfig)
    (st : DecoderState) (packetData : List Nat) :
    Except Err Unit × DecoderState :=
  match OpusDecoder.create_descriptor config with
  | .error e => (.error e, st)
  | .ok desc =>
    let fec := st.fec && st.packet_loss
    let step2 : Except Err Unit × DecoderState :=
      if fec then
        match OpusDecoder.decode o desc packetData true with
        | .error e => (.error e, st)
        | .ok frame =>
          (.ok (), { st with pending := st.pending ++ [frame], packet_loss := false })
      else (.ok (), st)
    match step2 with
    | (.error e, st1) => (.error e, st1)
    | (.ok _, st1) =>
      if packetData ≠ [] then
        match OpusDecoder.decode o desc packetData false with
        | .error e => (.error e, st1)
        | .ok frame => (.ok (), { st1 with pending := st1.pending ++ [frame] })
      else (.ok (), st1)

/-- `OpusDecoder::receive_frame`: pop the oldest pending frame, or `Again`. -/
def OpusDecoder.receive_frame (st : DecoderState) :
    Except Err DecFrame × DecoderState :=
  match st.pending with
  | [] => (.error (.Again "no frame available"), st)
  | f :: rest => (.ok f, { st with pending := rest })

/-- `OpusDecoder::flush`: a single `OPUS_RESET_STATE` ctl on the native
handle; the adapter state is untouched. -/
def OpusDecoder.flush (st : DecoderState) :
    Except Err Unit × DecoderState × List NativeCall :=
  (.ok (), st, [NativeCall.decReset])

/-- `OpusDecoder::set_option`: convert the value, then dispatch on the
key; `gain` forwards to a native ctl, `packet_loss` and `fec` set the
in-memory flags, everything else is Unsupported. -/
def OpusDecoder.set_option (o : DecOracle) (st : DecoderState)
    (key : String) (value : Variant) :
    Except Err Unit × DecoderState × List NativeCall :=
  match Variant.toI32 value with
  | none => (.error (.InvalidParameter "value"), st, [])
  | some v =>
    if key = "gain" then
      if o.ctlRet OPUS_SET_GAIN_REQUEST v = OPUS_OK then
        (.ok (), st, [NativeCall.decCtl OPUS_SET_GAIN_REQUEST v])
      else
        (.error (.SetFailed "opus"), st, [NativeCall.decCtl OPUS_SET_GAIN_REQUEST v])
    else if key = "packet_loss" then
      (.ok (), { st with packet_loss := v != 0 }, [])
    else if key = "fec" then
      (.ok (), { st with fec := v != 0 }, [])
    else
      (.error (.Unsupported key), st, [])

/-! ## Encoder (src/src/encoder.rs) -/

/-- `OpusOptions`.  The f32 field `frame_duration` is represented by the
derived 48 kHz sample count `frame_size48`, the value of the source cast
`(frame_duration * 48000f32 / 1000f32) as u32` (exact at the nine legal
durations: 2.5, 5, 10, 20, 40, 60, 80, 100, 120 ms give 120, 240, 480,
960, 1920, 2880, 3840, 4800, 5760 samples). -/
structure OpusOptions where
  application : Int
  frame_size48 : Nat
  frame_size : Nat
  packet_loss : Int
  fec : Bool
  vbr : Nat
  max_bandwidth : Nat
  complexity : Nat
deriving DecidableEq

/-- `AudioEncoderParameters`: the audio fields plus the two
`EncoderParameters` fields this crate reads. -/
structure AudioEncoderParameters where
  format : Option SampleFormat
  sample_rate : Option Nat
  channel_layout : Option Nat
  bit_rate : Option Int
  level : Option Int
deriving DecidableEq

/-- Oracle for the native encoder: `createOk` whether
`opus_encoder_create` yields a handle with `OPUS_OK`, `ctlRet` the
return code of `opus_encoder_ctl` on (request, value), `encodeRet` the
return code of `opus_encode`/`opus_encode_float` on (call index within
the process, input byte buffer). -/
structure EncOracle where
  createOk : Bool
  ctlRet : Int → Int → Int
  encodeRet : Nat → List Nat → Int

/-- Output packet as observable through the pending queue: timestamp
fields and the byte size it was truncated to. -/
structure PacketOut where
  pts : Int
  duration : Int
  time_base : Rat
  size : Nat
deriving DecidableEq

/-- `OpusEncoder` mutable state: pending packet queue, cached options
and the scratch padding buffer (a byte list). -/
structure EncoderState where
  pending : List PacketOut
  options : OpusOptions
  buffer : List Nat
deriving DecidableEq

/-- `OpusEncoder::encoder_ctl` issued in sequence: stop at the first
non-OK return code with SetFailed, recording the calls made. -/
def seqCtl (o : EncOracle) : List (Int × Int) → Except Err Unit × List NativeCall
  | [] => (.ok (), [])
  | (request, value) :: rest =>
    if o.ctlRet request value = OPUS_OK then
      let tail := seqCtl o rest
      (tail.1, NativeCall.encCtl request value :: tail.2)
    else (.error (.SetFailed "opus"), [NativeCall.encCtl request value])

/-- The `level` clamp in `OpusEncoder::set_encoder_parameters`:
out-of-range levels fall back to complexity 10. -/
def applyLevel (opts : OpusOptions) (level : Option Int) : OpusOptions :=
  match level with
  | none => opts
  | some l => { opts with complexity := if l < 0 ∨ 10 < l then 10 else l.toNat }

/-- `OpusEncoder::set_encoder_parameters`: forward `bit_rate` (when
present) to a native ctl, then clamp `level` into `complexity`. -/
def set_encoder_parameters (o : EncOracle) (opts : OpusOptions)
    (p : AudioEncoderParameters) : Except Err Unit × OpusOptions × List NativeCall :=
  match p.bit_rate with
  | some br =>
    if o.ctlRet OPUS_SET_BITRATE_REQUEST br = OPUS_OK then
      (.ok (), applyLevel opts p.level, [NativeCall.encCtl OPUS_SET_BITRATE_REQUEST br])
    else
      (.error (.SetFailed "opus"), opts, [NativeCall.encCtl OPUS_SET_BITRATE_REQUEST br])
  | none => (.ok (), applyLevel opts p.level, [])

/-- `OpusEncoder::update_options`: push the cached option fields to the
native handle in source order. -/
def update_options (o : EncOracle) (opts : OpusOptions) :
    Except Err Unit × List NativeCall :=
  seqCtl o
    ([(OPUS_SET_VBR_REQUEST, if opts.vbr > 0 then 1 else 0),
      (OPUS_SET_VBR_CONSTRAINT_REQUEST, if opts.vbr = 2 then 1 else 0),
      (OPUS_SET_PACKET_LOSS_PERC_REQUEST, opts.packet_loss),
      (OPUS_SET_INBAND_FEC_REQUEST, if opts.fec then 1 else 0)]
      ++ (if opts.complexity > 0 then [(OPUS_SET_COMPLEXITY_REQUEST, (opts.complexity : Int))] else [])
      ++ (if opts.max_bandwidth > 0 then [(OPUS_SET_MAX_BANDWIDTH_REQUEST, (opts.max_bandwidth : Int))] else []))

/-- `OpusEncoder::new`: codec id, format, parameter-presence and
frame-duration validation, the 2.5/5 ms low-delay forcing, the actual
frame size scaling, native creation, then the post-create ctl sequence.
Returns the encoder state or the first error, with the trace of native
calls issued. -/
def OpusEncoder.new (o : EncOracle) (codec_id : CodecID)
    (params : AudioEncoderParameters) (opts0 : OpusOptions) :
    Except Err EncoderState × List NativeCall :=
  if codec_id ≠ CodecID.OPUS then (.error (.Unsupported "codec id"), [])
  else
    match params.format with
    | none => (.error (.InvalidParameter "parameters"), [])
    | some sample_format =>
      if sample_format ≠ SampleFormat.S16 ∧ sample_format ≠ SampleFormat.F32 then
        (.error (.Unsupported "sample format"), [])
      else
        match params.sample_rate with
        | none => (.error (.InvalidParameter "parameters"), [])
        | some sample_rate =>
          match params.channel_layout with
          | none => (.error (.InvalidParameter "parameters"), [])
          | some channels =>
            let frame_size := opts0.frame_size48
            if frame_size ∈ ([120, 240, 480, 960, 1920, 2880, 3840, 4800, 5760] : List Nat) then
              let opts1 :=
                if frame_size = 120 ∨ frame_size = 240 then
                  { opts0 with application := OPUS_APPLICATION_RESTRICTED_LOWDELAY }
                else opts0
              let opts2 := { opts1 with frame_size := frame_size * sample_rate / 48000 }
              let createCall := NativeCall.encCreate (sample_rate : Int) (channels : Int) opts2.application
              if o.createOk then
                let buffer : List Nat :=
                  List.replicate (frame_size * channels * sample_format.bytes) 0
                match set_encoder_parameters o opts2 params with
                | (.error e, _, calls1) => (.error e, createCall :: calls1)
                | (.ok _, opts3, calls1) =>
                  match update_options o opts3 with
                  | (.error e, calls2) => (.error e, createCall :: (calls1 ++ calls2))
                  | (.ok _, calls2) =>
                    (.ok ⟨[], opts3, buffer⟩, createCall :: (calls1 ++ calls2))
              else (.error (.CreationFailed "opus"), [createCall])
            else (.error (.Invalid "frame duration"), [])

/-- `OpusEncoder::set_option`: convert the value, then dispatch on the
key; each recognized key updates the cached field (where one exists)
and issues the matching native ctl; anything else is Unsupported. -/
def OpusEncoder.set_option (o : EncOracle) (st : EncoderState)
    (key : String) (value : Variant) :
    Except Err Unit × EncoderState × List NativeCall :=
  match Variant.toI32 value with
  | none => (.error (.InvalidParameter "value"), st, [])
  | some v =>
    let ctl : Int → Int → EncoderState → Except Err Unit × EncoderState × List NativeCall :=
      fun request val st1 =>
        if o.ctlRet request val = OPUS_OK then
          (.ok (), st1, [NativeCall.encCtl request val])
        else (.error (.SetFailed "opus"), st1, [NativeCall.encCtl request val])
    if key = "bit_rate" then ctl OPUS_SET_BITRATE_REQUEST v st
    else if key = "packet_loss_percent" then
      ctl OPUS_SET_PACKET_LOSS_PERC_REQUEST v
        { st with options := { st.options with packet_loss := v } }
    else if key = "fec" then
      ctl OPUS_SET_INBAND_FEC_REQUEST v
        { st with options := { st.options with fec := v != 0 } }
    else if key = "vbr" then
      ctl OPUS_SET_VBR_REQUEST v
        { st with options := { st.options with vbr := v.toNat } }
    else if key = "max_bandwidth" then
      ctl OPUS_SET_MAX_BANDWIDTH_REQUEST v
        { st with options := { st.options with max_bandwidth := v.toNat } }
    else if key = "complexity" then
      ctl OPUS_SET_COMPLEXITY_REQUEST v
        { st with options := { st.options with complexity := v.toNat } }
    else (.error (.Unsupported key), st, [])

/- Wire constants of the encode path. -/
def MAX_FRAME_SIZE : Nat := 1275
def MAX_FRAMES : Nat := 6
def PACKET_HEADER_SIZE : Nat := 7
def packetCapacity : Nat := PACKET_HEADER_SIZE + MAX_FRAME_SIZE * MAX_FRAMES

/-- Rust `slice::chunks(k)`: consecutive sub-slices of length `k`, the
last possibly shorter.  (Rust panics on `k = 0`; every translated call
site has `k > 0`.) -/
def listChunks (k : Nat) : List α → List (List α)
  | [] => []
  | a :: rest =>
    if k = 0 then []
    else ((a :: rest).take k) :: listChunks k ((a :: rest).drop k)
termination_by l => l.length
decreasing_by
  simp only [List.length_drop, List.length_cons]
  omega

/-- num-rational `Ratio::to_integer`: numerator over denominator of the
reduced fraction under Rust `i64` division, which truncates toward
zero. -/
def ratToInteger (q : Rat) : Int := Int.tdiv q.num (q.den : Int)

/-- The per-chunk timestamp arithmetic of `OpusEncoder::encode`:
duration and time base from the configured frame size, the descriptor
sample rate and the input frame's optional time base. -/
def chunkTiming (frame_size : Nat) (sample_rate : Nat) (tb : Option Rat) : Int × Rat :=
  match tb with
  | some time_base =>
    (ratToInteger (Rat.divInt (frame_size : Int) (sample_rate : Int) / time_base), time_base)
  | none => ((frame_size : Int), Rat.divInt 1 (sample_rate : Int))

/-- The input audio frame of `OpusEncoder::encode`: descriptor fields,
optional pts and time base, and the plane-0 byte data. -/
structure AudioFrameIn where
  format : SampleFormat
  samples : Nat
  sample_rate : Nat
  channels : Nat
  pts : Option Int
  time_base : Option Rat
  data : List Nat
deriving DecidableEq

/-- The chunk loop of `OpusEncoder::encode`.  Per chunk: pad a short
final chunk through the scratch buffer (copy into its head, pass the
whole buffer), call the native encode, fail on a negative return code,
stamp pts/duration/time_base, advance pts, truncate the packet to the
returned byte count and push it.  Returns the packets pushed (kept even
when a later chunk fails), the byte buffers passed to the native encode
calls, the final scratch buffer and the overall result. -/
def encodeChunks (o : EncOracle) (chunk_size frame_size sample_rate : Nat)
    (tb : Option Rat) (buffer : List Nat) (idx : Nat) (pts : Int) :
    List (List Nat) → List PacketOut × List (List Nat) × List Nat × Except Err Unit
  | [] => ([], [], buffer, .ok ())
  | c :: cs =>
    let data := if c.length < chunk_size then c ++ buffer.drop c.length else c
    let buf2 := if c.length < chunk_size then c ++ buffer.drop c.length else buffer
    let ret := o.encodeRet idx data
    if ret < 0 then ([], [data], buf2, .error (.Failed "opus"))
    else
      let timing := chunkTiming frame_size sample_rate tb
      if ret.toNat ≤ packetCapacity then
        let pkt : PacketOut := ⟨pts, timing.1, timing.2, ret.toNat⟩
        let tail := encodeChunks o chunk_size frame_size sample_rate tb buf2 (idx + 1)
          (pts + timing.1) cs
        (pkt :: tail.1, data :: tail.2.1, tail.2.2.1, tail.2.2.2)
      else ([], [data], buf2, .error (.Invalid "truncate"))

/-- `OpusEncoder::encode`: reject unsupported formats, zero the scratch
buffer, slice the frame data to the declared sample count, split it
into chunks of one frame size and run the chunk loop.  Returns the
result, the updated state (packets appended to the queue even on a
late failure) and the byte buffers passed to the native encode calls. -/
def OpusEncoder.encode (o : EncOracle) (st : EncoderState)
    (frame : AudioFrameIn) :
    Except Err Unit × EncoderState × List (List Nat) :=
  if frame.format ≠ SampleFormat.S16 ∧ frame.format ≠ SampleFormat.F32 then
    (.error (.Unsupported "sample format"), st, [])
  else
    let sample_size := frame.channels * frame.format.bytes
    let frame_data_size := frame.samples * sample_size
    let chunk_size := st.options.frame_size * sample_size
    let pts0 := frame.pts.getD 0
    let buffer0 : List Nat := List.replicate st.buffer.length 0
    let chunks := listChunks chunk_size (frame.data.take frame_data_size)
    let out := encodeChunks o chunk_size st.options.frame_size frame.sample_rate
      frame.time_base buffer0 0 pts0 chunks
    (out.2.2.2,
     { st with pending := st.pending ++ out.1, buffer := out.2.2.1 },
     out.2.1)

/-- `OpusEncoder::send_frame` simply delegates to `encode`. -/
def OpusEncoder.send_frame (o : EncOracle) (st : EncoderState)
    (frame : AudioFrameIn) :
    Except Err Unit × EncoderState × List (List Nat) :=
  OpusEncoder.encode o st frame

/-- `OpusEncoder::receive_packet`: pop the oldest pending packet, or
`Again`. -/
def OpusEncoder.receive_packet (st : EncoderState) :
    Except Err PacketOut × EncoderState :=
  match st.pending with
  | [] => (.error (.Again "no packet available"), st)
  | p :: rest => (.ok p, { st with pending := rest })

/-- `OpusEncoder::flush`: re-zero the scratch buffer; no native call, no
queue change. -/
def OpusEncoder.flush (st : EncoderState) :
    Except Err Unit × EncoderState × List NativeCall :=
  (.ok (), { st with buffer := List.replicate st.buffer.length 0 }, [])

/-- Placeholder packet used as the default of `List.getD` in indexed
statements. -/
def nullPacket : PacketOut := ⟨0, 0, 0, 0⟩

/-! ## Decoder claims -/

/-- Helper: the shape of a frame produced by a successful decode. -/
theorem decode_ok_fields {o : DecOracle} {desc : AudioFrameDescriptor}
    {pd : List Nat} {fec : Bool} {f : DecFrame}
    (h : OpusDecoder.decode o desc pd fec = .ok f) :
    f.capacity = desc.samples ∧ f.fecMode = fec ∧
    f.requested =
      (if fec then o.samplesPerFrame pd desc.sample_rate else (desc.samples : Int)) := by
  simp only [OpusDecoder.decode] at h
  split_ifs at h <;>
    first
      | exact Except.noConfusion h
      | (injection h with h; subst h; simp [*])

/-- C4: for every valid configuration (sample rate, format and channel
layout all present), the decoder's frame descriptor is computed with a
maximum sample count of exactly `sample_rate * 120 / 1000` under integer
truncation; `create_descriptor` takes no packet, so the capacity is
independent of the packet being decoded. -/
theorem C4_descriptor_capacity (cfg : AudioConfig) (r c : Nat) (f : SampleFormat)
    (hr : cfg.sample_rate = some r) (hf : cfg.format = some f)
    (hc : cfg.channel_layout = some c) :
    ∃ d, OpusDecoder.create_descriptor cfg = .ok d ∧ d.samples = r * 120 / 1000 := by
  obtain ⟨sr, fo, cl⟩ := cfg
  cases hr
  cases hf
  cases hc
  exact ⟨_, rfl, rfl⟩

theorem C4_descriptor_capacity_witness :
    (⟨some 44100, some SampleFormat.F32, some 2⟩ : AudioConfig).sample_rate = some 44100 ∧
    (∃ d, OpusDecoder.create_descriptor ⟨some 44100, some SampleFormat.F32, some 2⟩ = .ok d ∧
      d.samples = 44100 * 120 / 1000) :=
  ⟨rfl, C4_descriptor_capacity ⟨some 44100, some SampleFormat.F32, some 2⟩ 44100 2
    SampleFormat.F32 rfl rfl rfl⟩

/-- C8: on every state of either engine, `flush` leaves the pending
output queue and the decoder's loss/FEC flags unchanged; the decoder
flush issues exactly the one native reset control call, and the encoder
flush issues no native call and only re-zeroes the scratch buffer. -/
theorem C8_flush_effects (dst : DecoderState) (est : EncoderState) :
    OpusDecoder.flush dst = (.ok (), dst, [NativeCall.decReset]) ∧
    OpusEncoder.flush est =
      (.ok (), { est with buffer := List.replicate est.buffer.length 0 }, []) :=
  ⟨rfl, rfl⟩

/-- C7: `set_option` with a key outside the recognized set returns
Unsupported on both engines, leaves the in-memory option state
unchanged and issues no native call. -/
theorem C7_set_option_unknown (o : DecOracle) (oe : EncOracle)
    (dst : DecoderState) (est : EncoderState) (key : String) (v : Variant)
    (hd : key ∉ (["gain", "packet_loss", "fec"] : List String))
    (he : key ∉ (["bit_rate", "packet_loss_percent", "fec", "vbr",
      "max_bandwidth", "complexity"] : List String)) :
    OpusDecoder.set_option o dst key v = (.error (.Unsupported key), dst, []) ∧
    OpusEncoder.set_option oe est key v = (.error (.Unsupported key), est, []) := by
  simp only [List.mem_cons, List.not_mem_nil, or_false, not_or] at hd he
  obtain ⟨h1, h2, h3⟩ := hd
  obtain ⟨h4, h5, _, h6, h7, h8⟩ := he
  cases v <;>
    simp [OpusDecoder.set_option, OpusEncoder.set_option, Variant.toI32,
      h1, h2, h3, h4, h5, h6, h7, h8]

theorem C7_set_option_unknown_witness :
    ("frame_duration" ∉ (["gain", "packet_loss", "fec"] : List String)) ∧
    ("frame_duration" ∉ (["bit_rate", "packet_loss_percent", "fec", "vbr",
      "max_bandwidth", "complexity"] : List String)) ∧
    (OpusDecoder.set_option ⟨fun _ _ => 0, fun _ _ _ => 0, fun _ => true, fun _ _ => 0⟩
        ⟨[], false, false⟩ "frame_duration" (Variant.int32 7) =
      (.error (.Unsupported "frame_duration"), ⟨[], false, false⟩, [])) ∧
    (OpusEncoder.set_option ⟨true, fun _ _ => 0, fun _ _ => 0⟩
        ⟨[], ⟨2049, 960, 960, 0, false, 1, 0, 10⟩, []⟩ "frame_duration" (Variant.int32 7) =
      (.error (.Unsupported "frame_duration"), ⟨[], ⟨2049, 960, 960, 0, false, 1, 0, 10⟩, []⟩, [])) := by
  have h := C7_set_option_unknown ⟨fun _ _ => 0, fun _ _ _ => 0, fun _ => true, fun _ _ => 0⟩
    ⟨true, fun _ _ => 0, fun _ _ => 0⟩ ⟨[], false, false⟩
    ⟨[], ⟨2049, 960, 960, 0, false, 1, 0, 10⟩, []⟩ "frame_duration" (Variant.int32 7)
    (by decide) (by decide)
  exact ⟨by decide, by decide, h.1, h.2⟩

/-- C9: when the FEC flag and the loss flag are both set and the
recovery decode itself fails (not writable, or a negative native return
code), `send_packet` returns that failure, enqueues nothing, and the
loss flag is still true afterwards. -/
theorem C9_recovery_failure (o : DecOracle) (cfg : AudioConfig)
    (st : DecoderState) (pd : List Nat) (desc : AudioFrameDescriptor) (e : Err)
    (hdesc : OpusDecoder.create_descriptor cfg = .ok desc)
    (hfec : st.fec = true) (hloss : st.packet_loss = true)
    (hfail : OpusDecoder.decode o desc pd true = .error e) :
    OpusDecoder.send_packet o cfg st pd = (.error e, st) ∧
    (OpusDecoder.send_packet o cfg st pd).2.packet_loss = true := by
  have h : OpusDecoder.send_packet o cfg st pd = (.error e, st) := by
    unfold OpusDecoder.send_packet
    rw [hdesc]
    simp [hfec, hloss, hfail]
  exact ⟨h, by rw [h]; exact hloss⟩

/-- C3: when the recovery decode succeeds (its frame is pushed) and the
subsequent normal decode fails, `send_packet` returns the failure while
the recovery frame and every previously queued frame remain in the
pending queue (partial success is preserved, not rolled back). -/
theorem C3_partial_success (o : DecOracle) (cfg : AudioConfig)
    (st : DecoderState) (pd : List Nat) (desc : AudioFrameDescriptor)
    (rec : DecFrame) (e : Err)
    (hdesc : OpusDecoder.create_descriptor cfg = .ok desc)
    (hfec : st.fec = true) (hloss : st.packet_loss = true) (hne : pd ≠ [])
    (h1 : OpusDecoder.decode o desc pd true = .ok rec)
    (h2 : OpusDecoder.decode o desc pd false = .error e) :
    OpusDecoder.send_packet o cfg st pd =
      (.error e, { st with pending := st.pending ++ [rec], packet_loss := false }) := by
  unfold OpusDecoder.send_packet
  rw [hdesc]
  simp [hfec, hloss, h1, h2, hne]

/-- C1: when the FEC flag and the loss flag are both set and both decode
attempts succeed, exactly one recovery frame — decoded with the FEC-mode
flag asserted, at the sample count `opus_packet_get_samples_per_frame`
declares for the current packet (the duration of the previous, lost
frame) — is enqueued ahead of the normal-decode frame of the same call,
and the loss flag is false immediately after the call returns. -/
theorem C1_fec_recovery (o : DecOracle) (cfg : AudioConfig)
    (st : DecoderState) (pd : List Nat) (desc : AudioFrameDescriptor)
    (rec norm : DecFrame)
    (hdesc : OpusDecoder.create_descriptor cfg = .ok desc)
    (hfec : st.fec = true) (hloss : st.packet_loss = true) (hne : pd ≠ [])
    (h1 : OpusDecoder.decode o desc pd true = .ok rec)
    (h2 : OpusDecoder.decode o desc pd false = .ok norm) :
    OpusDecoder.send_packet o cfg st pd =
      (.ok (), { st with pending := st.pending ++ [rec, norm], packet_loss := false }) ∧
    rec.fecMode = true ∧
    rec.requested = o.samplesPerFrame pd desc.sample_rate ∧
    norm.fecMode = false := by
  have hrec := decode_ok_fields h1
  have hnorm := decode_ok_fields h2
  rw [if_pos rfl] at hrec
  refine ⟨?_, hrec.2.1, hrec.2.2, hnorm.2.1⟩
  unfold OpusDecoder.send_packet
  rw [hdesc]
  simp [hfec, hloss, h1, h2, hne]

theorem C9_recovery_failure_witness :
    OpusDecoder.create_descriptor ⟨some 48000, some SampleFormat.S16, some 1⟩ =
      .ok ⟨SampleFormat.S16, 5760, 48000, 1⟩ ∧
    (⟨[], true, true⟩ : DecoderState).fec = true ∧
    (⟨[], true, true⟩ : DecoderState).packet_loss = true ∧
    OpusDecoder.decode
      ⟨fun _ _ => 960, fun _ _ fec => if fec then -1 else 0, fun _ => true, fun _ _ => 0⟩
      ⟨SampleFormat.S16, 5760, 48000, 1⟩ [1] true = .error (.Failed "opus") ∧
    OpusDecoder.send_packet
      ⟨fun _ _ => 960, fun _ _ fec => if fec then -1 else 0, fun _ => true, fun _ _ => 0⟩
      ⟨some 48000, some SampleFormat.S16, some 1⟩ ⟨[], true, true⟩ [1] =
      (.error (.Failed "opus"), ⟨[], true, true⟩) := by
  refine ⟨rfl, rfl, rfl, rfl, ?_⟩
  exact (C9_recovery_failure
    ⟨fun _ _ => 960, fun _ _ fec => if fec then -1 else 0, fun _ => true, fun _ _ => 0⟩
    ⟨some 48000, some SampleFormat.S16, some 1⟩ ⟨[], true, true⟩ [1]
    ⟨SampleFormat.S16, 5760, 48000, 1⟩ (.Failed "opus") rfl rfl rfl (by rfl)).1

theorem C3_partial_success_witness :
    OpusDecoder.create_descriptor ⟨some 48000, some SampleFormat.S16, some 1⟩ =
      .ok ⟨SampleFormat.S16, 5760, 48000, 1⟩ ∧
    ([1] : List Nat) ≠ [] ∧
    OpusDecoder.decode
      ⟨fun _ _ => 960, fun _ _ fec => if fec then 0 else -1, fun _ => true, fun _ _ => 0⟩
      ⟨SampleFormat.S16, 5760, 48000, 1⟩ [1] true = .ok ⟨5760, true, 960, 0⟩ ∧
    OpusDecoder.decode
      ⟨fun _ _ => 960, fun _ _ fec => if fec then 0 else -1, fun _ => true, fun _ _ => 0⟩
      ⟨SampleFormat.S16, 5760, 48000, 1⟩ [1] false = .error (.Failed "opus") ∧
    OpusDecoder.send_packet
      ⟨fun _ _ => 960, fun _ _ fec => if fec then 0 else -1, fun _ => true, fun _ _ => 0⟩
      ⟨some 48000, some SampleFormat.S16, some 1⟩
      ⟨[⟨5760, false, 5760, 7⟩], true, true⟩ [1] =
      (.error (.Failed "opus"),
        ⟨[⟨5760, false, 5760, 7⟩, ⟨5760, true, 960, 0⟩], false, true⟩) := by
  refine ⟨rfl, by decide, rfl, rfl, ?_⟩
  exact C3_partial_success
    ⟨fun _ _ => 960, fun _ _ fec => if fec then 0 else -1, fun _ => true, fun _ _ => 0⟩
    ⟨some 48000, some SampleFormat.S16, some 1⟩ ⟨[⟨5760, false, 5760, 7⟩], true, true⟩ [1]
    ⟨SampleFormat.S16, 5760, 48000, 1⟩ ⟨5760, true, 960, 0⟩ (.Failed "opus")
    rfl rfl rfl (by decide) (by rfl) (by rfl)

theorem C1_fec_recovery_witness :
    OpusDecoder.create_descriptor ⟨some 48000, some SampleFormat.S16, some 1⟩ =
      .ok ⟨SampleFormat.S16, 5760, 48000, 1⟩ ∧
    ([1] : List Nat) ≠ [] ∧
    OpusDecoder.decode ⟨fun _ _ => 960, fun _ _ _ => 0, fun _ => true, fun _ _ => 0⟩
      ⟨SampleFormat.S16, 5760, 48000, 1⟩ [1] true = .ok ⟨5760, true, 960, 0⟩ ∧
    OpusDecoder.decode ⟨fun _ _ => 960, fun _ _ _ => 0, fun _ => true, fun _ _ => 0⟩
      ⟨SampleFormat.S16, 5760, 48000, 1⟩ [1] false = .ok ⟨5760, false, 5760, 0⟩ ∧
    (OpusDecoder.send_packet ⟨fun _ _ => 960, fun _ _ _ => 0, fun _ => true, fun _ _ => 0⟩
        ⟨some 48000, some SampleFormat.S16, some 1⟩ ⟨[], true, true⟩ [1] =
      (.ok (), ⟨[⟨5760, true, 960, 0⟩, ⟨5760, false, 5760, 0⟩], false, true⟩) ∧
      (⟨5760, true, 960, 0⟩ : DecFrame).fecMode = true ∧
      (⟨5760, true, 960, 0⟩ : DecFrame).requested = 960 ∧
      (⟨5760, false, 5760, 0⟩ : DecFrame).fecMode = false) := by
  refine ⟨rfl, by decide, rfl, rfl, ?_⟩
  exact C1_fec_recovery ⟨fun _ _ => 960, fun _ _ _ => 0, fun _ => true, fun _ _ => 0⟩
    ⟨some 48000, some SampleFormat.S16, some 1⟩ ⟨[], true, true⟩ [1]
    ⟨SampleFormat.S16, 5760, 48000, 1⟩ ⟨5760, true, 960, 0⟩ ⟨5760, false, 5760, 0⟩
    rfl rfl rfl (by decide) (by rfl) (by rfl)

/-! ## Encoder claims -/

/-- C5: for every encoder construction with otherwise valid parameters
whose frame duration does not map to one of the nine legal sample
counts at 48 kHz (the nine legal millisecond values), construction
fails with an Invalid error and issues no native call at all — in
particular `opus_encoder_create` is never reached, so no native
resource exists to leak; and for the 2.5 ms and 5 ms durations (120 and
240 samples at 48 kHz) the create call is issued with the restricted
low-delay application mode regardless of the caller's requested mode. -/
theorem C5_new_frame_duration (o : EncOracle) (p : AudioEncoderParameters)
    (opts0 : OpusOptions) (fmt : SampleFormat) (r ch : Nat)
    (hf : p.format = some fmt)
    (hsup : fmt = SampleFormat.S16 ∨ fmt = SampleFormat.F32)
    (hr : p.sample_rate = some r) (hc : p.channel_layout = some ch) :
    (opts0.frame_size48 ∉ ([120, 240, 480, 960, 1920, 2880, 3840, 4800, 5760] : List Nat) →
      OpusEncoder.new o CodecID.OPUS p opts0 = (.error (.Invalid "frame duration"), [])) ∧
    (opts0.frame_size48 = 120 ∨ opts0.frame_size48 = 240 →
      (OpusEncoder.new o CodecID.OPUS p opts0).2.head? =
        some (NativeCall.encCreate (r : Int) (ch : Int)
          OPUS_APPLICATION_RESTRICTED_LOWDELAY)) := by
  have hfmt2 : ¬(fmt ≠ SampleFormat.S16 ∧ fmt ≠ SampleFormat.F32) := by
    rcases hsup with h | h <;> simp [h]
  constructor
  · intro hnotin
    unfold OpusEncoder.new
    rw [hf, hr, hc]
    simp [hfmt2, hnotin]
  · intro h120
    have hmem : opts0.frame_size48 ∈
        ([120, 240, 480, 960, 1920, 2880, 3840, 4800, 5760] : List Nat) := by
      rcases h120 with h | h <;> simp [h]
    unfold OpusEncoder.new
    rw [hf, hr, hc]
    simp only [hfmt2, if_false, hmem, if_true, h120, reduceIte, ite_not]
    split <;> first
      | simp
      | (split <;> first
          | simp
          | (split <;> simp))

theorem C5_new_frame_duration_witness :
    (⟨some SampleFormat.S16, some 48000, some 2, none, none⟩ :
      AudioEncoderParameters).format = some SampleFormat.S16 ∧
    ((720 : Nat) ∉ ([120, 240, 480, 960, 1920, 2880, 3840, 4800, 5760] : List Nat)) ∧
    OpusEncoder.new ⟨true, fun _ _ => 0, fun _ _ => 0⟩ CodecID.OPUS
      ⟨some SampleFormat.S16, some 48000, some 2, none, none⟩
      ⟨2049, 720, 960, 0, false, 1, 0, 10⟩ = (.error (.Invalid "frame duration"), []) ∧
    (OpusEncoder.new ⟨true, fun _ _ => 0, fun _ _ => 0⟩ CodecID.OPUS
        ⟨some SampleFormat.S16, some 48000, some 2, none, none⟩
        ⟨2049, 120, 120, 0, false, 1, 0, 10⟩).2.head? =
      some (NativeCall.encCreate 48000 2 OPUS_APPLICATION_RESTRICTED_LOWDELAY) := by
  refine ⟨rfl, by decide, ?_, ?_⟩
  · exact (C5_new_frame_duration ⟨true, fun _ _ => 0, fun _ _ => 0⟩
      ⟨some SampleFormat.S16, some 48000, some 2, none, none⟩
      ⟨2049, 720, 960, 0, false, 1, 0, 10⟩ SampleFormat.S16 48000 2
      rfl (Or.inl rfl) rfl rfl).1 (by decide)
  · exact (C5_new_frame_duration ⟨true, fun _ _ => 0, fun _ _ => 0⟩
      ⟨some SampleFormat.S16, some 48000, some 2, none, none⟩
      ⟨2049, 120, 120, 0, false, 1, 0, 10⟩ SampleFormat.S16 48000 2
      rfl (Or.inl rfl) rfl rfl).2 (Or.inl rfl)

/-! Helper lemmas about `listChunks` and `encodeChunks`. -/

theorem listChunks_nil (k : Nat) : listChunks k ([] : List α) = [] := by
  simp [listChunks]

theorem listChunks_cons (k : Nat) (hk : k ≠ 0) (l : List α) (hl : l ≠ []) :
    listChunks k l = l.take k :: listChunks k (l.drop k) := by
  cases l with
  | nil => exact absurd rfl hl
  | cons a rest => rw [listChunks, if_neg hk]

theorem listChunks_length (k : Nat) (hk : k ≠ 0) (l : List α) :
    (listChunks k l).length = (l.length + k - 1) / k := by
  generalize hn : l.length = n
  induction n using Nat.strong_induction_on generalizing l with
  | _ n ih =>
    cases l with
    | nil =>
      simp only [List.length_nil] at hn
      subst hn
      rw [listChunks_nil]
      simp only [List.length_nil, List.length_nil, Nat.zero_add]
      rw [Nat.div_eq_of_lt (by omega)]
    | cons a rest =>
      simp only [List.length_cons] at hn
      subst hn
      rw [listChunks, if_neg hk]
      have hlen : ((a :: rest).drop k).length = rest.length + 1 - k := by
        simp [List.length_drop]
      have hrec := ih ((a :: rest).drop k).length
        (by simp only [List.length_drop, List.length_cons]; omega)
        ((a :: rest).drop k) rfl
      simp only [List.length_cons, hrec, hlen]
      have hR : rest.length + 1 + k - 1 = rest.length + k := by omega
      rw [hR, Nat.add_div_right _ (Nat.pos_of_ne_zero hk)]
      rcases le_or_lt k (rest.length + 1) with hle | hlt
      · have h2 : rest.length + 1 - k + k - 1 = rest.length := by omega
        rw [h2]
      · have h2 : rest.length + 1 - k + k - 1 = k - 1 := by omega
        rw [h2, Nat.div_eq_of_lt (by omega), Nat.div_eq_of_lt (by omega)]

theorem listChunks_flatten (k : Nat) (hk : k ≠ 0) (l : List α) :
    (listChunks k l).flatten = l := by
  generalize hn : l.length = n
  induction n using Nat.strong_induction_on generalizing l with
  | _ n ih =>
    cases l with
    | nil => rw [listChunks_nil]; rfl
    | cons a rest =>
      simp only [List.length_cons] at hn
      subst hn
      rw [listChunks, if_neg hk, List.flatten_cons,
        ih ((a :: rest).drop k).length
          (by simp only [List.length_drop, List.length_cons]; omega)
          ((a :: rest).drop k) rfl,
        List.take_append_drop]

theorem listChunks_le (k : Nat) (hk : k ≠ 0) (l : List α) :
    ∀ c ∈ listChunks k l, c.length ≤ k := by
  generalize hn : l.length = n
  induction n using Nat.strong_induction_on generalizing l with
  | _ n ih =>
    cases l with
    | nil =>
      rw [listChunks_nil]
      intro c hc
      exact absurd hc (List.not_mem_nil c)
    | cons a rest =>
      simp only [List.length_cons] at hn
      subst hn
      rw [listChunks, if_neg hk]
      intro c hc
      rcases List.mem_cons.mp hc with h | h
      · subst h
        simp [List.length_take]
      · exact ih ((a :: rest).drop k).length
          (by simp only [List.length_drop, List.length_cons]; omega)
          ((a :: rest).drop k) rfl c h

theorem listChunks_full (k : Nat) (hk : k ≠ 0) (l : List α) :
    ∀ c ∈ (listChunks k l).dropLast, c.length = k := by
  generalize hn : l.length = n
  induction n using Nat.strong_induction_on generalizing l with
  | _ n ih =>
    cases l with
    | nil =>
      rw [listChunks_nil]
      intro c hc
      exact absurd hc (List.not_mem_nil c)
    | cons a rest =>
      simp only [List.length_cons] at hn
      subst hn
      rw [listChunks, if_neg hk]
      intro c hc
      rcases hdrop : listChunks k ((a :: rest).drop k) with _ | ⟨t, ts⟩
      · rw [hdrop] at hc
        simp at hc
      · rw [hdrop, List.dropLast_cons₂] at hc
        rcases List.mem_cons.mp hc with h | h
        · subst h
          have hne : (a :: rest).drop k ≠ [] := by
            intro hnil
            rw [hnil, listChunks_nil] at hdrop
            exact List.noConfusion hdrop
          have hklen : k < rest.length + 1 := by
            by_contra hge
            apply hne
            apply List.drop_eq_nil_of_le
            simp only [List.length_cons]
            omega
          simp only [List.length_take, List.length_cons]
          omega
        · have hrest := ih ((a :: rest).drop k).length
            (by simp only [List.length_drop, List.length_cons]; omega)
            ((a :: rest).drop k) rfl c
          rw [hdrop] at hrest
          exact hrest h

theorem encodeChunks_nil_eq (o : EncOracle) (csz fs rate : Nat) (tb : Option Rat)
    (buffer : List Nat) (idx : Nat) (pts : Int) :
    encodeChunks o csz fs rate tb buffer idx pts [] = ([], [], buffer, .ok ()) := rfl

theorem encodeChunks_cons_eq (o : EncOracle) (csz fs rate : Nat) (tb : Option Rat)
    (buffer : List Nat) (idx : Nat) (pts : Int) (c : List Nat) (cs : List (List Nat)) :
    encodeChunks o csz fs rate tb buffer idx pts (c :: cs) =
      (if o.encodeRet idx (if c.length < csz then c ++ buffer.drop c.length else c) < 0 then
        ([], [if c.length < csz then c ++ buffer.drop c.length else c],
          (if c.length < csz then c ++ buffer.drop c.length else buffer),
          .error (.Failed "opus"))
      else if (o.encodeRet idx
          (if c.length < csz then c ++ buffer.drop c.length else c)).toNat ≤ packetCapacity then
        (⟨pts, (chunkTiming fs rate tb).1, (chunkTiming fs rate tb).2,
            (o.encodeRet idx (if c.length < csz then c ++ buffer.drop c.length else c)).toNat⟩ ::
          (encodeChunks o csz fs rate tb
            (if c.length < csz then c ++ buffer.drop c.length else buffer) (idx + 1)
            (pts + (chunkTiming fs rate tb).1) cs).1,
          (if c.length < csz then c ++ buffer.drop c.length else c) ::
            (encodeChunks o csz fs rate tb
              (if c.length < csz then c ++ buffer.drop c.length else buffer) (idx + 1)
              (pts + (chunkTiming fs rate tb).1) cs).2.1,
          (encodeChunks o csz fs rate tb
            (if c.length < csz then c ++ buffer.drop c.length else buffer) (idx + 1)
            (pts + (chunkTiming fs rate tb).1) cs).2.2.1,
          (encodeChunks o csz fs rate tb
            (if c.length < csz then c ++ buffer.drop c.length else buffer) (idx + 1)
            (pts + (chunkTiming fs rate tb).1) cs).2.2.2)
      else ([], [if c.length < csz then c ++ buffer.drop c.length else c],
          (if c.length < csz then c ++ buffer.drop c.length else buffer),
          .error (.Invalid "truncate"))) := rfl

theorem encodeChunks_spec (o : EncOracle) (csz fs rate : Nat) (tb : Option Rat)
    (hret : ∀ i d, 0 ≤ o.encodeRet i d ∧ (o.encodeRet i d).toNat ≤ packetCapacity) :
    ∀ (cs : List (List Nat)) (buffer : List Nat) (idx : Nat) (pts : Int),
      (encodeChunks o csz fs rate tb buffer idx pts cs).2.2.2 = .ok () ∧
      (encodeChunks o csz fs rate tb buffer idx pts cs).1.length = cs.length ∧
      ∀ j, j < (encodeChunks o csz fs rate tb buffer idx pts cs).1.length →
        ((encodeChunks o csz fs rate tb buffer idx pts cs).1.getD j nullPacket).duration =
          (chunkTiming fs rate tb).1 ∧
        ((encodeChunks o csz fs rate tb buffer idx pts cs).1.getD j nullPacket).time_base =
          (chunkTiming fs rate tb).2 ∧
        ((encodeChunks o csz fs rate tb buffer idx pts cs).1.getD j nullPacket).pts =
          pts + j * (chunkTiming fs rate tb).1 := by
  intro cs
  induction cs with
  | nil =>
    intro buffer idx pts
    refine ⟨rfl, rfl, ?_⟩
    intro j hj
    simp [encodeChunks] at hj
  | cons c cs ih =>
    intro buffer idx pts
    by_cases hpad : c.length < csz
    · obtain ⟨hge, hle⟩ := hret idx (c ++ buffer.drop c.length)
      simp only [encodeChunks, if_pos hpad, if_neg (not_lt.mpr hge), if_pos hle]
      obtain ⟨ihok, ihlen, ihget⟩ := ih (c ++ buffer.drop c.length) (idx + 1)
        (pts + (chunkTiming fs rate tb).1)
      refine ⟨ihok, by simp [ihlen], ?_⟩
      intro j hj
      cases j with
      | zero => exact ⟨rfl, rfl, by simp⟩
      | succ j =>
        simp only [List.getD_cons_succ]
        simp only [List.length_cons] at hj
        obtain ⟨d1, d2, d3⟩ := ihget j (by omega)
        refine ⟨d1, d2, ?_⟩
        rw [d3]
        push_cast
        ring
    · obtain ⟨hge, hle⟩ := hret idx c
      simp only [encodeChunks, if_neg hpad, if_neg (not_lt.mpr hge), if_pos hle]
      obtain ⟨ihok, ihlen, ihget⟩ := ih buffer (idx + 1) (pts + (chunkTiming fs rate tb).1)
      refine ⟨ihok, by simp [ihlen], ?_⟩
      intro j hj
      cases j with
      | zero => exact ⟨rfl, rfl, by simp⟩
      | succ j =>
        simp only [List.getD_cons_succ]
        simp only [List.length_cons] at hj
        obtain ⟨d1, d2, d3⟩ := ihget j (by omega)
        refine ⟨d1, d2, ?_⟩
        rw [d3]
        push_cast
        ring

theorem encodeChunks_logs (o : EncOracle) (csz fs rate : Nat) (tb : Option Rat)
    (hret : ∀ i d, 0 ≤ o.encodeRet i d ∧ (o.encodeRet i d).toNat ≤ packetCapacity) :
    ∀ (cs : List (List Nat)) (idx : Nat) (pts : Int),
      (∀ c ∈ cs.dropLast, c.length = csz) →
      (encodeChunks o csz fs rate tb (List.replicate csz 0) idx pts cs).2.1 =
        cs.map (fun c => c ++ List.replicate (csz - c.length) 0) := by
  intro cs
  induction cs with
  | nil => intro idx pts _; rfl
  | cons c cs ih =>
    intro idx pts hfull
    cases cs with
    | nil =>
      by_cases hpad : c.length < csz
      · obtain ⟨hge, hle⟩ := hret idx (c ++ (List.replicate csz (0 : Nat)).drop c.length)
        rw [encodeChunks_cons_eq]
        simp only [if_pos hpad, if_neg (not_lt.mpr hge), if_pos hle, encodeChunks_nil_eq]
        simp [List.drop_replicate]
      · obtain ⟨hge, hle⟩ := hret idx c
        rw [encodeChunks_cons_eq]
        simp only [if_neg hpad, if_neg (not_lt.mpr hge), if_pos hle, encodeChunks_nil_eq]
        have h0 : csz - c.length = 0 := by omega
        simp [h0]
    | cons c2 cs2 =>
      have hc : c.length = csz := by
        apply hfull
        rw [List.dropLast_cons₂]
        exact List.mem_cons_self c _
      have hpad : ¬c.length < csz := by omega
      obtain ⟨hge, hle⟩ := hret idx c
      rw [encodeChunks_cons_eq]
      simp only [if_neg hpad, if_neg (not_lt.mpr hge), if_pos hle]
      have hfull2 : ∀ x ∈ (c2 :: cs2).dropLast, x.length = csz := by
        intro x hx
        apply hfull
        rw [List.dropLast_cons₂]
        exact List.mem_cons_of_mem _ hx
      rw [ih (idx + 1) (pts + (chunkTiming fs rate tb).1) hfull2]
      have h0 : csz - c.length = 0 := by omega
      simp [h0]

/-- C2: for every input frame the encoder splits into chunks, every
produced packet's duration and time base are given by `chunkTiming`
(frame_size samples converted into the frame's declared time base when
present, otherwise frame_size in a 1/sample_rate time base), the first
packet's pts is the input frame's pts (0 when absent), each subsequent
pts is the running sum of the prior (equal) durations, and all packets
share one time base; in particular one second of 48 kHz mono S16 audio
at 960-sample (20 ms) frames yields exactly 50 packets of duration 960
in a 1/48000 time base with pts 0, 960, 1920, ... -/
theorem C2_encode_timestamps (o : EncOracle) (st : EncoderState) (frame : AudioFrameIn)
    (hfmt : frame.format = SampleFormat.S16 ∨ frame.format = SampleFormat.F32)
    (hret : ∀ i d, 0 ≤ o.encodeRet i d ∧ (o.encodeRet i d).toNat ≤ packetCapacity) :
    (OpusEncoder.encode o st frame).1 = .ok () ∧
    ∃ pkts,
      (OpusEncoder.encode o st frame).2.1.pending = st.pending ++ pkts ∧
      pkts.length =
        (listChunks (st.options.frame_size * (frame.channels * frame.format.bytes))
          (frame.data.take (frame.samples * (frame.channels * frame.format.bytes)))).length ∧
      (∀ j, j < pkts.length →
        (pkts.getD j nullPacket).duration =
          (chunkTiming st.options.frame_size frame.sample_rate frame.time_base).1 ∧
        (pkts.getD j nullPacket).time_base =
          (chunkTiming st.options.frame_size frame.sample_rate frame.time_base).2 ∧
        (pkts.getD j nullPacket).pts =
          frame.pts.getD 0 +
            j * (chunkTiming st.options.frame_size frame.sample_rate frame.time_base).1) ∧
      (frame.format = SampleFormat.S16 → frame.channels = 1 → frame.sample_rate = 48000 →
        frame.samples = 48000 → st.options.frame_size = 960 → frame.time_base = none →
        frame.pts = none → 96000 ≤ frame.data.length →
        pkts.length = 50 ∧
        ∀ j, j < 50 →
          (pkts.getD j nullPacket).duration = 960 ∧
          (pkts.getD j nullPacket).time_base = Rat.divInt 1 48000 ∧
          (pkts.getD j nullPacket).pts = 960 * j) := by
  have hfmt2 : ¬(frame.format ≠ SampleFormat.S16 ∧ frame.format ≠ SampleFormat.F32) := by
    rcases hfmt with h | h <;> simp [h]
  obtain ⟨hok, hlen, hget⟩ := encodeChunks_spec o
    (st.options.frame_size * (frame.channels * frame.format.bytes))
    st.options.frame_size frame.sample_rate frame.time_base hret
    (listChunks (st.options.frame_size * (frame.channels * frame.format.bytes))
      (frame.data.take (frame.samples * (frame.channels * frame.format.bytes))))
    (List.replicate st.buffer.length 0) 0 (frame.pts.getD 0)
  unfold OpusEncoder.encode
  rw [if_neg hfmt2]
  refine ⟨hok, _, rfl, hlen, ?_, ?_⟩
  · intro j hj
    exact hget j hj
  · intro h1 h2 h3 h4 h5 h6 h7 h8
    simp only [h1, h2, h3, h4, h5, h6, h7, SampleFormat.bytes, Option.getD] at hlen hget ⊢
    norm_num at hlen hget ⊢
    rw [listChunks_length 1920 (by norm_num), List.length_take] at hlen
    have hmin : min 96000 frame.data.length = 96000 := by omega
    rw [hmin] at hlen
    norm_num at hlen
    refine ⟨hlen, ?_⟩
    intro j hj
    obtain ⟨d1, d2, d3⟩ := hget j (by rw [hlen]; exact hj)
    simp only [chunkTiming] at d1 d2 d3
    refine ⟨by rw [d1]; norm_num, by rw [d2]; norm_cast, ?_⟩
    rw [d3]
    push_cast
    ring

theorem C2_encode_timestamps_witness :
    (∀ i d, 0 ≤ (⟨true, fun _ _ => 0, fun _ _ => 0⟩ : EncOracle).encodeRet i d ∧
        ((⟨true, fun _ _ => 0, fun _ _ => 0⟩ : EncOracle).encodeRet i d).toNat ≤
          packetCapacity) ∧
    ((OpusEncoder.encode ⟨true, fun _ _ => 0, fun _ _ => 0⟩
        ⟨[], ⟨2049, 960, 960, 0, false, 1, 0, 10⟩, List.replicate 1920 0⟩
        ⟨SampleFormat.S16, 48000, 48000, 1, none, none, List.replicate 96000 0⟩).1 = .ok () ∧
      ∃ pkts,
        (OpusEncoder.encode ⟨true, fun _ _ => 0, fun _ _ => 0⟩
            ⟨[], ⟨2049, 960, 960, 0, false, 1, 0, 10⟩, List.replicate 1920 0⟩
            ⟨SampleFormat.S16, 48000, 48000, 1, none, none,
              List.replicate 96000 0⟩).2.1.pending = [] ++ pkts ∧
        pkts.length =
          (listChunks 1920 (List.take 96000 (List.replicate 96000 (0 : Nat)))).length ∧
        (∀ j : Nat, j < pkts.length →
          (pkts.getD j nullPacket).duration = (chunkTiming 960 48000 none).1 ∧
          (pkts.getD j nullPacket).time_base = (chunkTiming 960 48000 none).2 ∧
          (pkts.getD j nullPacket).pts = 0 + (j : Int) * (chunkTiming 960 48000 none).1) ∧
        (SampleFormat.S16 = SampleFormat.S16 → (1 : Nat) = 1 → (48000 : Nat) = 48000 →
          (48000 : Nat) = 48000 → (960 : Nat) = 960 →
          (none : Option Rat) = none → (none : Option Int) = none →
          96000 ≤ (List.replicate 96000 (0 : Nat)).length →
          pkts.length = 50 ∧
          ∀ j : Nat, j < 50 →
            (pkts.getD j nullPacket).duration = 960 ∧
            (pkts.getD j nullPacket).time_base = Rat.divInt 1 48000 ∧
            (pkts.getD j nullPacket).pts = 960 * (j : Int))) := by
  refine ⟨fun i d => ⟨le_refl 0, by show ((0 : Int)).toNat ≤ packetCapacity; decide⟩, ?_⟩
  exact C2_encode_timestamps ⟨true, fun _ _ => 0, fun _ _ => 0⟩
    ⟨[], ⟨2049, 960, 960, 0, false, 1, 0, 10⟩, List.replicate 1920 0⟩
    ⟨SampleFormat.S16, 48000, 48000, 1, none, none, List.replicate 96000 0⟩
    (Or.inl rfl) (fun i d => ⟨le_refl 0, by show ((0 : Int)).toNat ≤ packetCapacity; decide⟩)

/-- C6: the frame's byte data (sliced to the declared sample count) is
split into consecutive chunks of exactly frame_size samples — their
concatenation is the sliced data and every chunk but the last has the
full chunk byte size; the byte buffers passed to the native encode
calls are the chunks themselves, except that a short final chunk is
passed as the chunk followed by zeros up to the full chunk size — the
zeroed tail of the scratch buffer the chunk was copied into, not the
original short chunk. -/
theorem C6_chunk_padding (o : EncOracle) (st : EncoderState) (frame : AudioFrameIn)
    (hfmt : frame.format = SampleFormat.S16 ∨ frame.format = SampleFormat.F32)
    (hret : ∀ i d, 0 ≤ o.encodeRet i d ∧ (o.encodeRet i d).toNat ≤ packetCapacity)
    (hbuf : st.buffer.length = st.options.frame_size * (frame.channels * frame.format.bytes))
    (hcsz : st.options.frame_size * (frame.channels * frame.format.bytes) ≠ 0) :
    (listChunks (st.options.frame_size * (frame.channels * frame.format.bytes))
        (frame.data.take (frame.samples * (frame.channels * frame.format.bytes)))).flatten =
      frame.data.take (frame.samples * (frame.channels * frame.format.bytes)) ∧
    (∀ c ∈ (listChunks (st.options.frame_size * (frame.channels * frame.format.bytes))
        (frame.data.take (frame.samples * (frame.channels * frame.format.bytes)))).dropLast,
      c.length = st.options.frame_size * (frame.channels * frame.format.bytes)) ∧
    (OpusEncoder.encode o st frame).2.2 =
      (listChunks (st.options.frame_size * (frame.channels * frame.format.bytes))
        (frame.data.take (frame.samples * (frame.channels * frame.format.bytes)))).map
        (fun c => c ++ List.replicate
          (st.options.frame_size * (frame.channels * frame.format.bytes) - c.length) 0) := by
  have hfmt2 : ¬(frame.format ≠ SampleFormat.S16 ∧ frame.format ≠ SampleFormat.F32) := by
    rcases hfmt with h | h <;> simp [h]
  refine ⟨listChunks_flatten _ hcsz _, listChunks_full _ hcsz _, ?_⟩
  unfold OpusEncoder.encode
  rw [if_neg hfmt2, hbuf]
  exact encodeChunks_logs o
    (st.options.frame_size * (frame.channels * frame.format.bytes))
    st.options.frame_size frame.sample_rate frame.time_base hret
    (listChunks (st.options.frame_size * (frame.channels * frame.format.bytes))
      (frame.data.take (frame.samples * (frame.channels * frame.format.bytes))))
    0 (frame.pts.getD 0)
    (listChunks_full _ hcsz _)

theorem C6_chunk_padding_witness :
    (∀ i d, 0 ≤ (⟨true, fun _ _ => 0, fun _ _ => 0⟩ : EncOracle).encodeRet i d ∧
        ((⟨true, fun _ _ => 0, fun _ _ => 0⟩ : EncOracle).encodeRet i d).toNat ≤
          packetCapacity) ∧
    ((⟨[], ⟨2049, 120, 2, 0, false, 1, 0, 10⟩, [0, 0, 0, 0]⟩ :
        EncoderState).buffer.length = 4) ∧
    ((listChunks 4 (List.take 6 [5, 6, 7, 8, 9, 10])).flatten =
        List.take 6 ([5, 6, 7, 8, 9, 10] : List Nat) ∧
      (∀ c ∈ (listChunks 4 (List.take 6 ([5, 6, 7, 8, 9, 10] : List Nat))).dropLast,
        c.length = 4) ∧
      (OpusEncoder.encode ⟨true, fun _ _ => 0, fun _ _ => 0⟩
          ⟨[], ⟨2049, 120, 2, 0, false, 1, 0, 10⟩, [0, 0, 0, 0]⟩
          ⟨SampleFormat.S16, 3, 48000, 1, none, none, [5, 6, 7, 8, 9, 10]⟩).2.2 =
        (listChunks 4 (List.take 6 ([5, 6, 7, 8, 9, 10] : List Nat))).map
          (fun c => c ++ List.replicate (4 - c.length) 0)) := by
  refine ⟨fun i d => ⟨le_refl 0, by show ((0 : Int)).toNat ≤ packetCapacity; decide⟩, rfl, ?_⟩
  exact C6_chunk_padding ⟨true, fun _ _ => 0, fun _ _ => 0⟩
    ⟨[], ⟨2049, 120, 2, 0, false, 1, 0, 10⟩, [0, 0, 0, 0]⟩
    ⟨SampleFormat.S16, 3, 48000, 1, none, none, [5, 6, 7, 8, 9, 10]⟩
    (Or.inl rfl) (fun i d => ⟨le_refl 0, by show ((0 : Int)).toNat ≤ packetCapacity; decide⟩) rfl (by decide)

/-- C10: a send_frame call whose input frame declares zero samples
succeeds and enqueues no packet: the chunk iteration over the empty
byte slice makes no native encode call (empty call log) and pushes
nothing; only the scratch buffer is re-zeroed. -/
theorem C10_empty_frame (o : EncOracle) (st : EncoderState) (frame : AudioFrameIn)
    (hfmt : frame.format = SampleFormat.S16 ∨ frame.format = SampleFormat.F32)
    (hsamples : frame.samples = 0) (hfs : st.options.frame_size ≠ 0) :
    OpusEncoder.send_frame o st frame =
      (.ok (), { st with buffer := List.replicate st.buffer.length 0 }, []) := by
  have hfmt2 : ¬(frame.format ≠ SampleFormat.S16 ∧ frame.format ≠ SampleFormat.F32) := by
    rcases hfmt with h | h <;> simp [h]
  unfold OpusEncoder.send_frame OpusEncoder.encode
  rw [if_neg hfmt2]
  simp [hsamples, listChunks_nil, encodeChunks_nil_eq]

theorem C10_empty_frame_witness :
    ((⟨SampleFormat.S16, 0, 48000, 1, none, none, []⟩ : AudioFrameIn).samples = 0) ∧
    ((⟨[], ⟨2049, 960, 960, 0, false, 1, 0, 10⟩, [0, 0]⟩ :
      EncoderState).options.frame_size ≠ 0) ∧
    OpusEncoder.send_frame ⟨true, fun _ _ => 0, fun _ _ => 0⟩
        ⟨[], ⟨2049, 960, 960, 0, false, 1, 0, 10⟩, [0, 0]⟩
        ⟨SampleFormat.S16, 0, 48000, 1, none, none, []⟩ =
      (.ok (), ⟨[], ⟨2049, 960, 960, 0, false, 1, 0, 10⟩, [0, 0]⟩, []) := by
  refine ⟨rfl, by decide, ?_⟩
  exact C10_empty_frame ⟨true, fun _ _ => 0, fun _ _ => 0⟩
    ⟨[], ⟨2049, 960, 960, 0, false, 1, 0, 10⟩, [0, 0]⟩
    ⟨SampleFormat.S16, 0, 48000, 1, none, none, []⟩
    (Or.inl rfl) rfl (by decide)

end Opus
